import Mathlib

/-!
Shallow embedding of the secure random-string engines of
`src/controllers/Management/index.ts` (the nanoid-style generator, the
charset-oriented generator, and the entropy/collision analyzer).

Modelling conventions:
* JS strings are `List Char`; alphabets/charsets are lists of characters.
* The cryptographically secure byte source (`getSecureRandomValues`) is an
  abstract stream `byte : Nat → Nat`; a `Uint8Array` cell holds `byte k % 256`.
  Every `getRandomValues` fill reads consecutive positions of the stream, so a
  buffer refill (`bytes` exhausted, `j` reset to 0) simply continues at the
  next stream position; the batch/step size used by the source to size its
  scratch buffers is therefore observationally irrelevant and
  `calculateOptimalStep` is not needed by any claim.
* Rejection-sampling loops in the source (`while (i < size)`) retry
  unboundedly; they are embedded with an explicit `fuel` bound, `none`
  meaning the loop was still running after `fuel` iterations.
* JS numbers used as lengths are embedded as `ℚ` (`generateNanoID`, whose
  validation distinguishes non-integers via `Number.isInteger`) or as `ℤ`
  (the charset engine, whose callers pass integers); the real-valued
  collision mathematics (`Math.pow`, `Math.exp`, `Math.log`, `Math.log2`,
  `Math.ceil`) is idealized over `ℝ`.
* `console.warn` advisories (low entropy, short salt/token) have no effect
  on the returned value and are not modelled.
-/

/-- Error taxonomy (§7 of the spec): the `Error`s thrown by `generateNanoID`
("Size must be a positive integer", "Alphabet must contain at least 2
characters"), by `generateSecureRandomString` ("Length must be a positive
integer", "Charset cannot be empty") and by `generateComplexString`
("Length must be at least 4 for complex strings", "At least one character
type must be enabled"). -/
inductive GenError where
  | invalidLength
  | invalidAlphabet
  | emptyCharset
  | noCharacterClass
  deriving DecidableEq, Repr

deriving instance DecidableEq for Except

/-- The keys of the predefined-alphabet record `ALPHABET`. -/
inductive AlphabetKey where
  | DEFAULT
  | NO_CONFUSION
  | HEX
  | NUMERIC
  deriving DecidableEq, Repr

/-- `ALPHABET`, the predefined alphabets of the nanoid-style engine. -/
def ALPHABET : AlphabetKey → List Char
  | .DEFAULT => "0123456789ABCDEFGHIJKLMNOPQRSTUVWXYZabcdefghijklmnopqrstuvwxyz-_".data
  | .NO_CONFUSION => "346789ABCDEFGHJKLMNPQRTUVWXYabcdefghijkmnpqrtwxyz".data
  | .HEX => "0123456789abcdef".data
  | .NUMERIC => "0123456789".data

/-- `⌊log2 n⌋` by structural recursion on a fuel bound (`n` itself always
suffices, since the argument at least halves each step). -/
def log2floorAux : Nat → Nat → Nat
  | 0, _ => 0
  | fuel + 1, n => if n ≤ 1 then 0 else log2floorAux fuel (n / 2) + 1

/-- `⌊log2 n⌋` (0 at 0). -/
def log2floor (n : Nat) : Nat := log2floorAux n n

/-- `Math.clz32`: leading zero count of the 32-bit representation of the
argument (`ToUint32` is the `% 2^32`; for `x ≠ 0` the leading-zero count is
`31 - ⌊log2 x⌋`). -/
def clz32 (n : Nat) : Nat :=
  let x := n % 4294967296
  if x = 0 then 32 else 31 - log2floor x

/-- `isPowerOf2`: `(n & (n - 1)) === 0 && n > 0`. -/
def isPowerOf2 (n : Nat) : Bool :=
  n &&& (n - 1) == 0 && n != 0

/-- The bitmask computed by `generateNanoID` for non-power-of-two alphabets:
`(2 << (31 - Math.clz32((len - 1) | 1))) - 1`.  (JS `<<` truncates to 32
bits, which differs from `Nat` only for alphabets of more than `2^31`
symbols, far beyond the 256 relevant here.) -/
def nanoMask (len : Nat) : Nat :=
  (2 <<< (31 - clz32 ((len - 1) ||| 1))) - 1

/-- The sampling loop shared verbatim by `generateSmallID` and
`generateLargeID` (the two source functions differ only in how the output
string is accumulated — incremental `+=` vs. array join — which does not
change the produced character sequence).  `i` is the position in the result,
`j` the position in the byte stream; a byte is masked, accepted iff the
masked value indexes the alphabet, and otherwise skipped. -/
def sampleLoop (byte : Nat → Nat) (alphabet : List Char) (mask size : Nat) :
    Nat → Nat → Nat → List Char → Option (List Char)
  | 0, _, _, _ => none
  | fuel + 1, i, j, acc =>
    if i < size then
      let r := (byte j % 256) &&& mask
      if r < alphabet.length then
        sampleLoop byte alphabet mask size fuel (i + 1) (j + 1) (acc ++ [alphabet.getD r ' '])
      else
        sampleLoop byte alphabet mask size fuel i (j + 1) acc
    else
      some acc

/-- `generateSmallID` (IDs of at most 16 characters). -/
def generateSmallID (byte : Nat → Nat) (fuel size : Nat) (alphabet : List Char)
    (mask : Nat) : Option (List Char) :=
  sampleLoop byte alphabet mask size fuel 0 0 []

/-- `generateLargeID` (IDs of more than 16 characters); same sampling loop as
`generateSmallID`, accumulating into a pre-allocated array instead. -/
def generateLargeID (byte : Nat → Nat) (fuel size : Nat) (alphabet : List Char)
    (mask : Nat) : Option (List Char) :=
  sampleLoop byte alphabet mask size fuel 0 0 []

/-- The `for (let i = 0; i < size; i++) result += alphabet[bytes[i] & mask]`
loop of `generatePowerOf2ID`; the first argument of the recursion is the
number of remaining iterations. -/
def pow2Loop (byte : Nat → Nat) (alphabet : List Char) (mask : Nat) :
    Nat → Nat → List Char → List Char
  | 0, _, acc => acc
  | k + 1, i, acc =>
    pow2Loop byte alphabet mask k (i + 1) (acc ++ [alphabet.getD ((byte i % 256) &&& mask) ' '])

/-- `generatePowerOf2ID`: fills a `Uint8Array(size)` once (stream positions
`0..size-1`, no refill) and maps byte `i` to `alphabet[bytes[i] & (len - 1)]`.
Its two source branches (string concatenation for `size ≤ 16`, array join
otherwise) append exactly the same characters in the same order. -/
def generatePowerOf2ID (byte : Nat → Nat) (size : Nat) (alphabet : List Char) : List Char :=
  let mask := alphabet.length - 1
  pow2Loop byte alphabet mask size 0 []

/-- The alphabet-resolution line of `generateNanoID`:
`typeof alphabet === "string" ? alphabet : ALPHABET[alphabet] || ALPHABET.DEFAULT`.
`Sum.inl` is a JS string — note that in TS every value of the declared
parameter type `string | keyof typeof ALPHABET` is a string, including the
four key names themselves, so a key passed as a string takes this branch and
is used literally.  `Sum.inr k` models a non-string value whose property key
is `k`, for which `ALPHABET[alphabet]` finds the constant (the
`|| ALPHABET.DEFAULT` fallback is unreachable there because all four
constants are non-empty strings, hence truthy). -/
def resolveAlphabet : List Char ⊕ AlphabetKey → List Char
  | .inl s => s
  | .inr k => ALPHABET k

/-- `generateNanoID`.  `size` is a JS number (a rational, so that the
`Number.isInteger(size)` test is expressible as `size.den = 1`); after
validation it is a positive integer and is used as the `Nat` `size.num.toNat`.
The low-entropy `console.warn` has no observable effect and is omitted. -/
def generateNanoID (byte : Nat → Nat) (fuel : Nat) (size : ℚ)
    (alphabet : List Char ⊕ AlphabetKey) : Except GenError (Option (List Char)) :=
  let alphabetStr := resolveAlphabet alphabet
  if size ≤ 0 ∨ size.den ≠ 1 then .error .invalidLength
  else if alphabetStr.length < 2 then .error .invalidAlphabet
  else
    let sizeN : Nat := size.num.toNat
    let len := alphabetStr.length
    if isPowerOf2 len then .ok (some (generatePowerOf2ID byte sizeN alphabetStr))
    else
      let mask := nanoMask len
      if sizeN ≤ 16 then .ok (generateSmallID byte fuel sizeN alphabetStr mask)
      else .ok (generateLargeID byte fuel sizeN alphabetStr mask)

/- ### Charset-oriented engine -/

def ALPHANUMERIC_CHARS : List Char :=
  "abcdefghijklmnopqrstuvwxyzABCDEFGHIJKLMNOPQRSTUVWXYZ0123456789".data
def URL_SAFE_CHARS : List Char :=
  "abcdefghijklmnopqrstuvwxyzABCDEFGHIJKLMNOPQRSTUVWXYZ0123456789-_".data
def LOWERCASE_CHARS : List Char := "abcdefghijklmnopqrstuvwxyz".data
def UPPERCASE_CHARS : List Char := "ABCDEFGHIJKLMNOPQRSTUVWXYZ".data
def NUMERIC_CHARS : List Char := "0123456789".data
def HEX_CHARS : List Char := "0123456789abcdef".data

/-- Loop of `generateWithRejectionSampling`: a byte `r` is accepted iff
`r < maxValid` and then contributes `charset[r % charsetLength]`; rejected
bytes are skipped.  (The source scans fixed-size buffers and refills them,
growing the buffer when progress is slow; the scan order is exactly
consecutive stream positions, so buffer sizes are observationally
irrelevant.) -/
def rejectionSamplingLoop (byte : Nat → Nat) (charset : List Char) (maxValid size : Nat) :
    Nat → Nat → Nat → List Char → Option (List Char)
  | 0, _, _, _ => none
  | fuel + 1, resultIndex, j, acc =>
    if resultIndex < size then
      let r := byte j % 256
      if r < maxValid then
        rejectionSamplingLoop byte charset maxValid size fuel (resultIndex + 1) (j + 1)
          (acc ++ [charset.getD (r % charset.length) ' '])
      else
        rejectionSamplingLoop byte charset maxValid size fuel resultIndex (j + 1) acc
    else
      some acc

/-- `generateWithRejectionSampling`: `maxValid = Math.floor(256 / charsetLength) * charsetLength`. -/
def generateWithRejectionSampling (byte : Nat → Nat) (fuel size : Nat)
    (charset : List Char) : Option (List Char) :=
  rejectionSamplingLoop byte charset (256 / charset.length * charset.length) size fuel 0 0 []

/-- Loop of `generateWithBiasReduction`: each iteration fills a fresh batch
of `batch` bytes (stream positions `off .. off + batch - 1`) and uses the
first `processLength = min (size - resultIndex) batch` of them, mapping every
byte unconditionally to `charset[r % charsetLength]`. -/
def biasReductionLoop (byte : Nat → Nat) (charset : List Char) (size batch : Nat) :
    Nat → Nat → Nat → List Char → Option (List Char)
  | 0, _, _, _ => none
  | fuel + 1, resultIndex, off, acc =>
    if resultIndex < size then
      let processLength := min (size - resultIndex) batch
      biasReductionLoop byte charset size batch fuel (resultIndex + processLength) (off + batch)
        (acc ++ (List.range processLength).map
          (fun i => charset.getD ((byte (off + i) % 256) % charset.length) ' '))
    else
      some acc

/-- `generateWithBiasReduction`: `batchSize = Math.min(Math.max(length, 64), 1024)`.
The loop makes strict progress every iteration (the batch is at least 64
bytes), so `size + 1` iterations always suffice and no caller-visible fuel is
needed. -/
def generateWithBiasReduction (byte : Nat → Nat) (size : Nat)
    (charset : List Char) : Option (List Char) :=
  biasReductionLoop byte charset size (min (max size 64) 1024) (size + 1) 0 0 []

/-- `generateSecureRandomString`: validates, then picks the strategy solely
by charset length (rejection sampling for at most 16 symbols, unconditional
modulo otherwise). -/
def generateSecureRandomString (byte : Nat → Nat) (fuel : Nat) (size : Int)
    (charset : List Char) : Except GenError (Option (List Char)) :=
  if size ≤ 0 then .error .invalidLength
  else if charset.length = 0 then .error .emptyCharset
  else
    let sizeN : Nat := size.toNat
    if charset.length ≤ 16 then .ok (generateWithRejectionSampling byte fuel sizeN charset)
    else .ok (generateWithBiasReduction byte sizeN charset)

/-- `generateRandomSalt` (alphanumeric; the below-8 advisory is a warning
only). -/
def generateRandomSalt (byte : Nat → Nat) (fuel : Nat) (size : Int := 16) :
    Except GenError (Option (List Char)) :=
  generateSecureRandomString byte fuel size ALPHANUMERIC_CHARS

/-- `generateToken` (alphanumeric; the below-16 advisory is a warning only). -/
def generateToken (byte : Nat → Nat) (fuel : Nat) (size : Int := 32) :
    Except GenError (Option (List Char)) :=
  generateSecureRandomString byte fuel size ALPHANUMERIC_CHARS

/-- `generateUrlSafeToken`. -/
def generateUrlSafeToken (byte : Nat → Nat) (fuel : Nat) (size : Int := 32) :
    Except GenError (Option (List Char)) :=
  generateSecureRandomString byte fuel size URL_SAFE_CHARS

/-- `generateHexString`. -/
def generateHexString (byte : Nat → Nat) (fuel : Nat) (size : Int := 32) :
    Except GenError (Option (List Char)) :=
  generateSecureRandomString byte fuel size HEX_CHARS

/-- `generateNumericString`. -/
def generateNumericString (byte : Nat → Nat) (fuel : Nat) (size : Int := 6) :
    Except GenError (Option (List Char)) :=
  generateSecureRandomString byte fuel size NUMERIC_CHARS

/-- The options record of `generateComplexString`, with the destructuring
defaults of the source (`lowercase = true, uppercase = true, numbers = true,
symbols = ""`). -/
structure ComplexOptions where
  lowercase : Bool := true
  uppercase : Bool := true
  numbers : Bool := true
  symbols : List Char := []

/-- `[allChars[i], allChars[j]] = [allChars[j], allChars[i]]`. -/
def listSwap (l : List Char) (i j : Nat) : List Char :=
  (l.set i (l.getD j ' ')).set j (l.getD i ' ')

/-- The Fisher–Yates loop of `generateComplexString`
(`for (let i = n - 1; i > 0; i--) { j = shuffleBytes[i-1] % (i+1); swap }`);
the first argument of the recursion is the current index `i`. -/
def shuffleLoop (shuffleByte : Nat → Nat) : Nat → List Char → List Char
  | 0, l => l
  | i + 1, l => shuffleLoop shuffleByte i (listSwap l (i + 1) (shuffleByte i % 256 % (i + 2)))

/-- `generateComplexString`.  Each inner call to the secure engine draws from
the same underlying CSPRNG; since successive `getRandomValues` fills are
independent, the segments consumed by the successive calls are modelled as
the independent streams `bytes 0, bytes 1, …` in call order (one stream per
required-class call, then one for the remaining characters, then one for the
shuffle bytes).  An inner `.ok none` (fuel exhausted in a rejection loop)
propagates as `.ok none`; an inner error propagates as that error. -/
def generateComplexString (bytes : Nat → Nat → Nat) (fuel : Nat) (size : Int)
    (options : ComplexOptions) : Except GenError (Option (List Char)) :=
  if size < 4 then .error .invalidLength
  else if !options.lowercase && !options.uppercase && !options.numbers
      && options.symbols.isEmpty then .error .noCharacterClass
  else
    let classes : List (List Char) :=
      (if options.lowercase then [LOWERCASE_CHARS] else []) ++
      (if options.uppercase then [UPPERCASE_CHARS] else []) ++
      (if options.numbers then [NUMERIC_CHARS] else []) ++
      (if !options.symbols.isEmpty then [options.symbols] else [])
    let charset : List Char := classes.flatten
    let requiredResults : List (Except GenError (Option (List Char))) :=
      classes.enum.map (fun kc => generateSecureRandomString (bytes kc.1) fuel 1 kc.2)
    match requiredResults.foldr
        (fun (r acc : Except GenError (Option (List Char))) =>
          match r, acc with
          | .error e, _ => .error e
          | _, .error e => .error e
          | .ok none, _ => .ok none
          | _, .ok none => .ok none
          | .ok (some c), .ok (some cs) => .ok (some (c ++ cs)))
        (.ok (some ([] : List Char))) with
    | .error e => .error e
    | .ok none => .ok none
    | .ok (some requiredChars) =>
      let remainingLength : Int := size - (requiredChars.length : Int)
      match generateSecureRandomString (bytes classes.length) fuel remainingLength charset with
      | .error e => .error e
      | .ok none => .ok none
      | .ok (some remainingChars) =>
        let allChars := requiredChars ++ remainingChars
        .ok (some (shuffleLoop (bytes (classes.length + 1)) (allChars.length - 1) allChars))

/- ### Entropy & collision analyzer (real-valued idealization of JS float arithmetic) -/

open scoped Classical in
/-- `calculateCollisionProbability`: birthday-bound collision probability as
a percentage; exact combinatorial form when `size * Math.log2(alphabetSize)`
is at most 60, exponential approximation above. -/
noncomputable def calculateCollisionProbability (size alphabetSize idCount : ℝ) : ℝ :=
  if 60 < size * Real.logb 2 alphabetSize then
    let possibilities := alphabetSize ^ size
    let exponent := -((idCount * (idCount - 1)) / (2 * possibilities))
    (1 - Real.exp exponent) * 100
  else
    let possibilities := alphabetSize ^ size
    (1 - ((possibilities - 1) / possibilities) ^ ((idCount * (idCount - 1)) / 2)) * 100

/-- `recommendIdSize`: inverts the birthday approximation;
`bitsNeeded = Math.ceil(Math.log2((n * n) / (-2 * Math.log(1 - p))))` with
`p = maxCollisionProbability / 100`, then converts bits to characters via
`Math.ceil(bitsNeeded / Math.log2(alphabetSize))`. -/
noncomputable def recommendIdSize (alphabetSize idCount : ℝ)
    (maxCollisionProbability : ℝ := 0.0000001) : ℝ :=
  let p := maxCollisionProbability / 100
  let n := idCount
  let bitsNeeded : ℤ := ⌈Real.logb 2 ((n * n) / (-2 * Real.log (1 - p)))⌉
  let entropyPerChar := Real.logb 2 alphabetSize
  ((⌈(bitsNeeded : ℝ) / entropyPerChar⌉ : ℤ) : ℝ)

open scoped Classical in
/-- The collision formula exactly as the specification words it (for the
refinement comparison of the approximation branch): the spec states the
approximation `1 - e^(-idCount² / (2P))`, with `idCount` squared. -/
noncomputable def collisionProbabilityClaimed (size alphabetSize idCount : ℝ) : ℝ :=
  if 60 < size * Real.logb 2 alphabetSize then
    let P := alphabetSize ^ size
    (1 - Real.exp (-(idCount * idCount) / (2 * P))) * 100
  else
    let P := alphabetSize ^ size
    (1 - ((P - 1) / P) ^ ((idCount * (idCount - 1)) / 2)) * 100

open scoped Classical in
/-- The collision formula as the specification words it, with the
approximation exponent amended to `idCount * (idCount - 1)` (what the code
actually computes). -/
noncomputable def collisionProbabilityClaimedAmended (size alphabetSize idCount : ℝ) : ℝ :=
  if 60 < size * Real.logb 2 alphabetSize then
    let P := alphabetSize ^ size
    (1 - Real.exp (-(idCount * (idCount - 1)) / (2 * P))) * 100
  else
    let P := alphabetSize ^ size
    (1 - ((P - 1) / P) ^ ((idCount * (idCount - 1)) / 2)) * 100

/- ### Supporting lemmas -/

lemma getD_mem_of_lt (l : List Char) (n : Nat) (d : Char) (h : n < l.length) :
    l.getD n d ∈ l := by
  rw [List.getD_eq_getElem l d h]
  exact l.getElem_mem h

lemma pow2Loop_eq (byte : Nat → Nat) (alph : List Char) (mask : Nat) :
    ∀ (k i : Nat) (acc : List Char),
      pow2Loop byte alph mask k i acc =
        acc ++ (List.range k).map (fun t => alph.getD ((byte (i + t) % 256) &&& mask) ' ') := by
  intro k
  induction k with
  | zero => intro i acc; simp [pow2Loop]
  | succ k ih =>
    intro i acc
    have hfun : ((fun t => alph.getD ((byte (i + t) % 256) &&& mask) ' ') ∘ Nat.succ)
        = (fun t => alph.getD ((byte (i + 1 + t) % 256) &&& mask) ' ') := by
      funext t
      simp only [Function.comp_apply]
      rw [show i + Nat.succ t = i + 1 + t from by omega]
    rw [pow2Loop, ih, List.range_succ_eq_map, List.map_cons, List.map_map, hfun]
    simp

lemma sampleLoop_length (byte : Nat → Nat) (alph : List Char) (mask size : Nat) :
    ∀ (fuel i j : Nat) (acc out : List Char),
      sampleLoop byte alph mask size fuel i j acc = some out →
      i ≤ size → acc.length = i → out.length = size := by
  intro fuel
  induction fuel with
  | zero => intro i j acc out h _ _; simp [sampleLoop] at h
  | succ fuel ih =>
    intro i j acc out h hi hacc
    simp only [sampleLoop] at h
    split at h
    next hlt =>
      split at h
      · exact ih _ _ _ _ h (by omega) (by simp [hacc])
      · exact ih _ _ _ _ h hi hacc
    next hge =>
      cases h
      simp [hacc]
      omega

lemma sampleLoop_mem (byte : Nat → Nat) (alph : List Char) (mask size : Nat) :
    ∀ (fuel i j : Nat) (acc out : List Char),
      sampleLoop byte alph mask size fuel i j acc = some out →
      ∀ c ∈ out, c ∈ acc ∨ c ∈ alph := by
  intro fuel
  induction fuel with
  | zero => intro i j acc out h; simp [sampleLoop] at h
  | succ fuel ih =>
    intro i j acc out h
    simp only [sampleLoop] at h
    split at h
    next hlt =>
      split at h
      next hr =>
        intro c hc
        rcases ih _ _ _ _ h c hc with hmem | hmem
        · rcases List.mem_append.mp hmem with h1 | h1
          · exact Or.inl h1
          · have hco : c = alph.getD ((byte j % 256) &&& mask) ' ' := by simpa using h1
            rw [hco]
            exact Or.inr (getD_mem_of_lt _ _ _ hr)
        · exact Or.inr hmem
      next => exact ih _ _ _ _ h
    next hge =>
      cases h
      intro c hc
      exact Or.inl hc

lemma sampleLoop_filterMap (byte : Nat → Nat) (alph : List Char) (mask size : Nat) :
    ∀ (fuel i j : Nat) (acc out : List Char),
      sampleLoop byte alph mask size fuel i j acc = some out →
      ∃ M, out = acc ++ (List.range M).filterMap (fun t =>
        if (byte (j + t) % 256) &&& mask < alph.length then
          some (alph.getD ((byte (j + t) % 256) &&& mask) ' ') else none) := by
  intro fuel
  induction fuel with
  | zero => intro i j acc out h; simp [sampleLoop] at h
  | succ fuel ih =>
    intro i j acc out h
    simp only [sampleLoop] at h
    split at h
    next hlt =>
      have hfun : ((fun t =>
          if (byte (j + t) % 256) &&& mask < alph.length then
            some (alph.getD ((byte (j + t) % 256) &&& mask) ' ') else none) ∘ Nat.succ)
          = (fun t =>
          if (byte (j + 1 + t) % 256) &&& mask < alph.length then
            some (alph.getD ((byte (j + 1 + t) % 256) &&& mask) ' ') else none) := by
        funext t
        simp only [Function.comp_apply]
        rw [show j + Nat.succ t = j + 1 + t from by omega]
      split at h
      next hr =>
        obtain ⟨M, hM⟩ := ih _ _ _ _ h
        refine ⟨M + 1, ?_⟩
        rw [hM, List.range_succ_eq_map, List.filterMap_cons, List.filterMap_map, hfun]
        simp [hr]
      next hr =>
        obtain ⟨M, hM⟩ := ih _ _ _ _ h
        refine ⟨M + 1, ?_⟩
        rw [hM, List.range_succ_eq_map, List.filterMap_cons, List.filterMap_map, hfun]
        simp [hr]
    next hge =>
      cases h
      exact ⟨0, by simp⟩

lemma rejectionSamplingLoop_length (byte : Nat → Nat) (charset : List Char) (maxValid size : Nat) :
    ∀ (fuel i j : Nat) (acc out : List Char),
      rejectionSamplingLoop byte charset maxValid size fuel i j acc = some out →
      i ≤ size → acc.length = i → out.length = size := by
  intro fuel
  induction fuel with
  | zero => intro i j acc out h _ _; simp [rejectionSamplingLoop] at h
  | succ fuel ih =>
    intro i j acc out h hi hacc
    simp only [rejectionSamplingLoop] at h
    split at h
    next hlt =>
      split at h
      · exact ih _ _ _ _ h (by omega) (by simp [hacc])
      · exact ih _ _ _ _ h hi hacc
    next hge =>
      cases h
      simp [hacc]
      omega

lemma rejectionSamplingLoop_filterMap (byte : Nat → Nat) (charset : List Char) (maxValid size : Nat) :
    ∀ (fuel i j : Nat) (acc out : List Char),
      rejectionSamplingLoop byte charset maxValid size fuel i j acc = some out →
      ∃ M, out = acc ++ (List.range M).filterMap (fun t =>
        if byte (j + t) % 256 < maxValid then
          some (charset.getD ((byte (j + t) % 256) % charset.length) ' ') else none) := by
  intro fuel
  induction fuel with
  | zero => intro i j acc out h; simp [rejectionSamplingLoop] at h
  | succ fuel ih =>
    intro i j acc out h
    simp only [rejectionSamplingLoop] at h
    split at h
    next hlt =>
      have hfun : ((fun t =>
          if byte (j + t) % 256 < maxValid then
            some (charset.getD ((byte (j + t) % 256) % charset.length) ' ') else none) ∘ Nat.succ)
          = (fun t =>
          if byte (j + 1 + t) % 256 < maxValid then
            some (charset.getD ((byte (j + 1 + t) % 256) % charset.length) ' ') else none) := by
        funext t
        simp only [Function.comp_apply]
        rw [show j + Nat.succ t = j + 1 + t from by omega]
      split at h
      next hr =>
        obtain ⟨M, hM⟩ := ih _ _ _ _ h
        refine ⟨M + 1, ?_⟩
        rw [hM, List.range_succ_eq_map, List.filterMap_cons, List.filterMap_map, hfun]
        simp [hr]
      next hr =>
        obtain ⟨M, hM⟩ := ih _ _ _ _ h
        refine ⟨M + 1, ?_⟩
        rw [hM, List.range_succ_eq_map, List.filterMap_cons, List.filterMap_map, hfun]
        simp [hr]
    next hge =>
      cases h
      exact ⟨0, by simp⟩

lemma rejectionSamplingLoop_total (byte : Nat → Nat) (charset : List Char) (size : Nat) :
    ∀ (fuel i j : Nat) (acc : List Char),
      i ≤ size → size - i < fuel →
      rejectionSamplingLoop byte charset 256 size fuel i j acc =
        some (acc ++ (List.range (size - i)).map
          (fun t => charset.getD ((byte (j + t) % 256) % charset.length) ' ')) := by
  intro fuel
  induction fuel with
  | zero => intro i j acc h1 h2; omega
  | succ fuel ih =>
    intro i j acc hi hf
    simp only [rejectionSamplingLoop]
    split
    next hlt =>
      rw [if_pos (Nat.mod_lt (byte j) (by norm_num) : byte j % 256 < 256)]
      rw [ih (i + 1) (j + 1) _ (by omega) (by omega)]
      have hfun : ((fun t => charset.getD ((byte (j + t) % 256) % charset.length) ' ') ∘ Nat.succ)
          = (fun t => charset.getD ((byte (j + 1 + t) % 256) % charset.length) ' ') := by
        funext t
        simp only [Function.comp_apply]
        rw [show j + Nat.succ t = j + 1 + t from by omega]
      rw [show size - i = (size - (i + 1)) + 1 from by omega,
        List.range_succ_eq_map, List.map_cons, List.map_map, hfun]
      simp
    next hge =>
      rw [show size - i = 0 from by omega]
      simp

lemma biasReductionLoop_eq (byte : Nat → Nat) (charset : List Char) (size batch : Nat)
    (hb : 1 ≤ batch) :
    ∀ (fuel r : Nat) (acc : List Char),
      r ≤ size → size - r < fuel →
      biasReductionLoop byte charset size batch fuel r r acc =
        some (acc ++ (List.range (size - r)).map
          (fun t => charset.getD ((byte (r + t) % 256) % charset.length) ' ')) := by
  intro fuel
  induction fuel with
  | zero => intro r acc h1 h2; omega
  | succ fuel ih =>
    intro r acc hr hf
    simp only [biasReductionLoop]
    split
    next hlt =>
      by_cases hfull : batch < size - r
      · have hmin : min (size - r) batch = batch := by omega
        rw [hmin]
        have hstep := ih (r + batch) (acc ++ (List.range batch).map
          (fun i => charset.getD ((byte (r + i) % 256) % charset.length) ' '))
          (by omega) (by omega)
        rw [hstep]
        have hfun : ((fun t => charset.getD ((byte (r + t) % 256) % charset.length) ' ')
            ∘ (batch + ·)) = (fun t =>
            charset.getD ((byte (r + batch + t) % 256) % charset.length) ' ') := by
          funext t
          simp only [Function.comp_apply]
          rw [show r + (batch + t) = r + batch + t from by omega]
        rw [show size - r = batch + (size - r - batch) from by omega, List.range_add,
          List.map_append, List.map_map, hfun]
        simp [show size - (r + batch) = size - r - batch from by omega]
      · have hmin : min (size - r) batch = size - r := by omega
        rw [hmin]
        have hdone : r + (size - r) = size := by omega
        rw [hdone]
        cases fuel with
        | zero => omega
        | succ fuel2 =>
          simp only [biasReductionLoop]
          rw [if_neg (by omega : ¬ size < size)]
    next hge =>
      rw [show size - r = 0 from by omega]
      simp

lemma generateWithBiasReduction_eq (byte : Nat → Nat) (size : Nat) (charset : List Char) :
    generateWithBiasReduction byte size charset =
      some ((List.range size).map
        (fun t => charset.getD ((byte t % 256) % charset.length) ' ')) := by
  unfold generateWithBiasReduction
  rw [show (0 : Nat) = 0 from rfl]
  have h := biasReductionLoop_eq byte charset size (min (max size 64) 1024)
    (by omega) (size + 1) 0 [] (by omega) (by omega)
  rw [h]
  simp

/- ### Theorems for the claims -/

/-- C1: for every integer length > 0 and every alphabet of at least 2
symbols, `generateNanoID` never throws, and whenever it completes (the
power-of-two fast path always does; the small/large rejection-sampling paths
complete when the loop finishes within the byte budget) the returned string
has exactly the requested length and every one of its characters belongs to
the given alphabet. -/
theorem generateNanoID_length_and_alphabet (byte : Nat → Nat) (fuel sizeN : Nat)
    (a : List Char ⊕ AlphabetKey) (s : List Char)
    (hs : 0 < sizeN) (h2 : 2 ≤ (resolveAlphabet a).length) :
    (∀ e, generateNanoID byte fuel (sizeN : ℚ) a ≠ .error e) ∧
    (generateNanoID byte fuel (sizeN : ℚ) a = .ok (some s) →
      s.length = sizeN ∧ ∀ c ∈ s, c ∈ resolveAlphabet a) := by
  have hval : ¬ ((sizeN : ℚ) ≤ 0 ∨ ((sizeN : ℚ)).den ≠ 1) := by
    rintro (h1 | hden)
    · have hq : (0:ℚ) < (sizeN : ℚ) := by exact_mod_cast hs
      linarith
    · exact hden (Rat.den_natCast _)
  have hnum : ((sizeN : ℚ)).num.toNat = sizeN := by
    rw [Rat.num_natCast, Int.toNat_natCast]
  simp only [generateNanoID, hnum, if_neg hval, if_neg (not_lt.mpr h2)]
  by_cases hp : isPowerOf2 (resolveAlphabet a).length = true
  · rw [if_pos hp]
    refine ⟨fun e => by simp, fun h => ?_⟩
    have hsome : s = generatePowerOf2ID byte sizeN (resolveAlphabet a) := by
      injection h with h'
      injection h' with h''
      exact h''.symm
    subst hsome
    unfold generatePowerOf2ID
    rw [pow2Loop_eq]
    constructor
    · simp
    · intro c hc
      simp only [List.nil_append, List.mem_map, List.mem_range] at hc
      obtain ⟨t, ht, hct⟩ := hc
      rw [← hct]
      apply getD_mem_of_lt
      have h1 : (byte (0 + t) % 256) &&& ((resolveAlphabet a).length - 1)
          ≤ (resolveAlphabet a).length - 1 := Nat.and_le_right
      omega
  · rw [if_neg hp]
    have handle : ∀ res : Except GenError (Option (List Char)),
        res = .ok (sampleLoop byte (resolveAlphabet a)
          (nanoMask (resolveAlphabet a).length) sizeN fuel 0 0 []) →
        (∀ e, res ≠ .error e) ∧
        (res = .ok (some s) → s.length = sizeN ∧ ∀ c ∈ s, c ∈ resolveAlphabet a) := by
      intro res hres
      subst hres
      refine ⟨fun e => by simp, fun h => ?_⟩
      have hsl : sampleLoop byte (resolveAlphabet a)
          (nanoMask (resolveAlphabet a).length) sizeN fuel 0 0 [] = some s := by
        injection h with h'
      refine ⟨sampleLoop_length byte _ _ sizeN fuel 0 0 [] s hsl (by omega) rfl, ?_⟩
      intro c hc
      rcases sampleLoop_mem byte _ _ sizeN fuel 0 0 [] s hsl c hc with hmem | hmem
      · simp at hmem
      · exact hmem
    split
    · exact handle _ rfl
    · exact handle _ rfl

/-- Witness for C1 at a concrete input: stream `k ↦ k`, length 5, the
three-symbol alphabet "abc". -/
theorem generateNanoID_length_and_alphabet_witness :
    0 < 5 ∧ 2 ≤ (resolveAlphabet (.inl "abc".data)).length ∧
    ((∀ e, generateNanoID (fun k => k) 30 ((5 : Nat) : ℚ) (.inl "abc".data) ≠ .error e) ∧
     (generateNanoID (fun k => k) 30 ((5 : Nat) : ℚ) (.inl "abc".data)
        = .ok (some ['a','b','c','a','b']) →
       (['a','b','c','a','b'] : List Char).length = 5 ∧
       ∀ c ∈ (['a','b','c','a','b'] : List Char), c ∈ resolveAlphabet (.inl "abc".data))) :=
  ⟨by decide, by decide,
    generateNanoID_length_and_alphabet (fun k => k) 30 5 (.inl "abc".data)
      ['a','b','c','a','b'] (by decide) (by decide)⟩

/-- C4: on the power-of-two fast path `generateNanoID` routes to
`generatePowerOf2ID`; output position `i` is `alphabet[bytes[i] & (len - 1)]`,
and the result depends only on the first `size` bytes of the stream (the
single `Uint8Array(size)` fill — no rejection, no refill, one byte per
output character). -/
theorem generatePowerOf2ID_fast_path (byte byte' : Nat → Nat) (fuel sizeN : Nat)
    (alph : List Char)
    (hs : 0 < sizeN) (h2 : 2 ≤ alph.length) (hpow : isPowerOf2 alph.length = true)
    (hagree : ∀ i, i < sizeN → byte i = byte' i) :
    generateNanoID byte fuel (sizeN : ℚ) (.inl alph)
      = .ok (some (generatePowerOf2ID byte sizeN alph)) ∧
    generatePowerOf2ID byte sizeN alph =
      (List.range sizeN).map (fun i => alph.getD ((byte i % 256) &&& (alph.length - 1)) ' ') ∧
    generatePowerOf2ID byte sizeN alph = generatePowerOf2ID byte' sizeN alph := by
  have hval : ¬ ((sizeN : ℚ) ≤ 0 ∨ ((sizeN : ℚ)).den ≠ 1) := by
    rintro (h1 | hden)
    · have hq : (0:ℚ) < (sizeN : ℚ) := by exact_mod_cast hs
      linarith
    · exact hden (Rat.den_natCast _)
  have hnum : ((sizeN : ℚ)).num.toNat = sizeN := by
    rw [Rat.num_natCast, Int.toNat_natCast]
  have hmap : ∀ b : Nat → Nat, generatePowerOf2ID b sizeN alph =
      (List.range sizeN).map (fun i => alph.getD ((b i % 256) &&& (alph.length - 1)) ' ') := by
    intro b
    unfold generatePowerOf2ID
    rw [pow2Loop_eq]
    simp
  refine ⟨?_, hmap byte, ?_⟩
  · simp only [generateNanoID, hnum, if_neg hval, if_neg (not_lt.mpr h2), resolveAlphabet]
    rw [if_pos hpow]
  · rw [hmap byte, hmap byte']
    apply List.map_congr_left
    intro t ht
    rw [hagree t (List.mem_range.mp ht)]

/-- Witness for C4 at a concrete input: the 16-symbol hex alphabet, length 4,
and two streams agreeing on positions 0–3. -/
theorem generatePowerOf2ID_fast_path_witness :
    0 < 4 ∧ 2 ≤ ("0123456789abcdef".data : List Char).length ∧
    isPowerOf2 ("0123456789abcdef".data : List Char).length = true ∧
    (generateNanoID (fun k => k) 9 ((4 : Nat) : ℚ) (.inl "0123456789abcdef".data)
       = .ok (some (generatePowerOf2ID (fun k => k) 4 "0123456789abcdef".data)) ∧
     generatePowerOf2ID (fun k => k) 4 "0123456789abcdef".data =
       (List.range 4).map (fun i => ("0123456789abcdef".data).getD
         (((fun k => k) i % 256) &&& (("0123456789abcdef".data : List Char).length - 1)) ' ') ∧
     generatePowerOf2ID (fun k => k) 4 "0123456789abcdef".data
       = generatePowerOf2ID (fun k => if k < 4 then k else 99) 4 "0123456789abcdef".data) :=
  ⟨by decide, by decide, by decide,
    generatePowerOf2ID_fast_path (fun k => k) (fun k => if k < 4 then k else 99) 9 4
      "0123456789abcdef".data (by decide) (by decide) (by decide) (by decide)⟩

lemma generateSecureRandomString_small (byte : Nat → Nat) (fuel sizeN : Nat)
    (cs : List Char) (hs : 0 < sizeN) (h0 : 0 < cs.length) (h16 : cs.length ≤ 16) :
    generateSecureRandomString byte fuel (sizeN : Int) cs =
      .ok (generateWithRejectionSampling byte fuel sizeN cs) := by
  have hpos : ¬ ((sizeN : Int) ≤ 0) := by
    push_neg
    exact_mod_cast hs
  have htn : ((sizeN : Int)).toNat = sizeN := Int.toNat_natCast sizeN
  simp only [generateSecureRandomString, if_neg hpos, if_neg (by omega : ¬ cs.length = 0),
    if_pos h16, htn]

lemma generateSecureRandomString_large (byte : Nat → Nat) (fuel sizeN : Nat)
    (cs : List Char) (hs : 0 < sizeN) (h16 : 16 < cs.length) :
    generateSecureRandomString byte fuel (sizeN : Int) cs =
      .ok (some ((List.range sizeN).map
        (fun t => cs.getD ((byte t % 256) % cs.length) ' '))) := by
  have hpos : ¬ ((sizeN : Int) ≤ 0) := by
    push_neg
    exact_mod_cast hs
  have htn : ((sizeN : Int)).toNat = sizeN := Int.toNat_natCast sizeN
  simp only [generateSecureRandomString, if_neg hpos, if_neg (by omega : ¬ cs.length = 0),
    if_neg (by omega : ¬ cs.length ≤ 16), htn, generateWithBiasReduction_eq]

/-- C10: the convenience generators never clamp the requested length — for
every positive integer length (including lengths below the 16/8 advisory
thresholds, whose warnings do not touch the value) `generateToken`,
`generateRandomSalt` and `generateHexString` return exactly `length`
characters (the hexadecimal charset accepts every byte, since
`⌊256/16⌋·16 = 256`, so its rejection loop finishes within the byte budget),
and `generateNumericString` returns exactly `length` characters whenever its
rejection loop completes. -/
theorem convenience_generators_exact_length (byte : Nat → Nat) (fuel sizeN : Nat)
    (outN : List Char) (hs : 0 < sizeN) (hfuel : sizeN < fuel) :
    (∃ t, generateToken byte fuel (sizeN : Int) = .ok (some t) ∧ t.length = sizeN) ∧
    (∃ t, generateRandomSalt byte fuel (sizeN : Int) = .ok (some t) ∧ t.length = sizeN) ∧
    (∃ t, generateHexString byte fuel (sizeN : Int) = .ok (some t) ∧ t.length = sizeN) ∧
    (generateNumericString byte fuel (sizeN : Int) = .ok (some outN) → outN.length = sizeN) := by
  have halnum : generateSecureRandomString byte fuel (sizeN : Int) ALPHANUMERIC_CHARS =
      .ok (some ((List.range sizeN).map
        (fun t => ALPHANUMERIC_CHARS.getD ((byte t % 256) % ALPHANUMERIC_CHARS.length) ' '))) :=
    generateSecureRandomString_large byte fuel sizeN _ hs (by decide)
  refine ⟨?_, ?_, ?_, ?_⟩
  · exact ⟨_, by rw [generateToken, halnum], by simp⟩
  · exact ⟨_, by rw [generateRandomSalt, halnum], by simp⟩
  · have hhex : generateHexString byte fuel (sizeN : Int) =
        .ok (some ((List.range sizeN).map
          (fun t => HEX_CHARS.getD ((byte t % 256) % HEX_CHARS.length) ' '))) := by
      rw [generateHexString,
        generateSecureRandomString_small byte fuel sizeN _ hs (by decide) (by decide),
        generateWithRejectionSampling,
        show 256 / HEX_CHARS.length * HEX_CHARS.length = 256 from by decide,
        rejectionSamplingLoop_total byte HEX_CHARS sizeN fuel 0 0 [] (by omega) (by omega)]
      simp
    exact ⟨_, hhex, by simp⟩
  · intro h
    rw [generateNumericString,
      generateSecureRandomString_small byte fuel sizeN _ hs (by decide) (by decide)] at h
    have hsl : generateWithRejectionSampling byte fuel sizeN NUMERIC_CHARS = some outN := by
      injection h with h'
    exact rejectionSamplingLoop_length byte NUMERIC_CHARS _ sizeN fuel 0 0 [] outN hsl
      (by omega) rfl

/-- Witness for C10 at a concrete input: length 3 (below both advisory
thresholds), stream `k ↦ k`. -/
theorem convenience_generators_exact_length_witness :
    0 < 3 ∧ 3 < 5 ∧
    ((∃ t, generateToken (fun k => k) 5 ((3 : Nat) : Int) = .ok (some t) ∧ t.length = 3) ∧
     (∃ t, generateRandomSalt (fun k => k) 5 ((3 : Nat) : Int) = .ok (some t) ∧ t.length = 3) ∧
     (∃ t, generateHexString (fun k => k) 5 ((3 : Nat) : Int) = .ok (some t) ∧ t.length = 3) ∧
     (generateNumericString (fun k => k) 5 ((3 : Nat) : Int) = .ok (some ['0','1','2']) →
       (['0','1','2'] : List Char).length = 3)) :=
  ⟨by decide, by decide,
    convenience_generators_exact_length (fun k => k) 5 3 ['0','1','2'] (by decide) (by decide)⟩

/-- C5: `generateSecureRandomString` selects its strategy solely by charset
length.  For charsets of at most 16 symbols it runs rejection sampling in
which a byte `r` is accepted iff `r < ⌊256 / len⌋ * len` and then contributes
`charset[r % len]` (rejected bytes contribute nothing and the next byte is
consumed); for larger charsets every byte maps unconditionally to
`charset[r % len]`. -/
theorem generateSecureRandomString_strategy (byte : Nat → Nat) (fuel sizeN : Nat)
    (cs : List Char) (out : List Char)
    (hs : 0 < sizeN) (h0 : 0 < cs.length) :
    (cs.length ≤ 16 →
      generateSecureRandomString byte fuel (sizeN : Int) cs =
        .ok (generateWithRejectionSampling byte fuel sizeN cs) ∧
      (generateWithRejectionSampling byte fuel sizeN cs = some out →
        ∃ M, out = (List.range M).filterMap (fun t =>
          if byte t % 256 < 256 / cs.length * cs.length then
            some (cs.getD ((byte t % 256) % cs.length) ' ') else none))) ∧
    (16 < cs.length →
      generateSecureRandomString byte fuel (sizeN : Int) cs =
        .ok (some ((List.range sizeN).map
          (fun t => cs.getD ((byte t % 256) % cs.length) ' ')))) := by
  constructor
  · intro h16
    refine ⟨generateSecureRandomString_small byte fuel sizeN cs hs h0 h16, ?_⟩
    intro h
    obtain ⟨M, hM⟩ := rejectionSamplingLoop_filterMap byte cs _ sizeN fuel 0 0 [] out h
    refine ⟨M, ?_⟩
    rw [hM]
    simp
  · intro h16
    exact generateSecureRandomString_large byte fuel sizeN cs hs h16

/-- Witness for C5 at a concrete input: the ten-symbol numeric charset
(rejection-sampling side), length 2, stream `k ↦ k`. -/
theorem generateSecureRandomString_strategy_witness :
    0 < 2 ∧ 0 < NUMERIC_CHARS.length ∧
    ((NUMERIC_CHARS.length ≤ 16 →
      generateSecureRandomString (fun k => k) 5 ((2 : Nat) : Int) NUMERIC_CHARS =
        .ok (generateWithRejectionSampling (fun k => k) 5 2 NUMERIC_CHARS) ∧
      (generateWithRejectionSampling (fun k => k) 5 2 NUMERIC_CHARS = some ['0','1'] →
        ∃ M, (['0','1'] : List Char) = (List.range M).filterMap (fun t =>
          if (fun k => k) t % 256 < 256 / NUMERIC_CHARS.length * NUMERIC_CHARS.length then
            some (NUMERIC_CHARS.getD (((fun k => k) t % 256) % NUMERIC_CHARS.length) ' ')
          else none))) ∧
     (16 < NUMERIC_CHARS.length →
      generateSecureRandomString (fun k => k) 5 ((2 : Nat) : Int) NUMERIC_CHARS =
        .ok (some ((List.range 2).map
          (fun t => NUMERIC_CHARS.getD (((fun k => k) t % 256) % NUMERIC_CHARS.length) ' '))))) :=
  ⟨by decide, by decide,
    generateSecureRandomString_strategy (fun k => k) 5 2 NUMERIC_CHARS ['0','1']
      (by decide) (by decide)⟩

/-- C2 counterexample: the repeated-character alphabet "aa" has only one
distinct symbol, yet `generateNanoID` accepts it (the source checks the
character count `alphabetStr.length < 2`, never deduplicating) and happily
returns "aaaaaaaaaa" instead of failing with `InvalidAlphabet`. -/
theorem generateNanoID_duplicate_alphabet_accepted :
    generateNanoID (fun _ => 0) 1 ((10 : Nat) : ℚ) (.inl ['a','a'])
      = .ok (some (List.replicate 10 'a')) ∧
    (['a','a'] : List Char).dedup.length = 1 :=
  ⟨by decide, by decide⟩

/-- C2 (amended): `generateNanoID` fails with `InvalidLength` exactly when
the requested size is ≤ 0 or not an integer, fails with `InvalidAlphabet`
exactly when the size is valid and the alphabet string has fewer than 2
characters counted with repetitions (a repeated-character alphabet such as
"aa" passes), and in every other case returns without throwing. -/
theorem generateNanoID_error_characterization (byte : Nat → Nat) (fuel : Nat) (size : ℚ)
    (a : List Char ⊕ AlphabetKey) :
    (generateNanoID byte fuel size a = .error .invalidLength ↔ size ≤ 0 ∨ size.den ≠ 1) ∧
    (generateNanoID byte fuel size a = .error .invalidAlphabet ↔
      ¬(size ≤ 0 ∨ size.den ≠ 1) ∧ (resolveAlphabet a).length < 2) ∧
    (¬(size ≤ 0 ∨ size.den ≠ 1) → ¬((resolveAlphabet a).length < 2) →
      ∃ r, generateNanoID byte fuel size a = .ok r) := by
  by_cases h1 : size ≤ 0 ∨ size.den ≠ 1
  · simp only [generateNanoID, if_pos h1]
    refine ⟨by simp [h1], by simp [h1], fun hcontra _ => absurd h1 hcontra⟩
  · by_cases hlen : (resolveAlphabet a).length < 2
    · simp only [generateNanoID, if_neg h1, if_pos hlen]
      refine ⟨by simp [h1], by simp [h1, hlen], fun _ hcontra => absurd hlen hcontra⟩
    · simp only [generateNanoID, if_neg h1, if_neg hlen]
      refine ⟨?_, ?_, ?_⟩
      · split
        · simp [h1]
        · split
          · simp [h1]
          · simp [h1]
      · split
        · simp [h1, hlen]
        · split
          · simp [h1, hlen]
          · simp [h1, hlen]
      · intro _ _
        split
        · exact ⟨_, rfl⟩
        · split
          · exact ⟨_, rfl⟩
          · exact ⟨_, rfl⟩

/-- Witness for the amended C2 at a concrete input: a negative length is
rejected with `InvalidLength`. -/
theorem generateNanoID_error_characterization_witness :
    generateNanoID (fun _ => 0) 1 (-3 : ℚ) (.inl ['a','b']) = .error .invalidLength :=
  (generateNanoID_error_characterization (fun _ => 0) 1 (-3) (.inl ['a','b'])).1.mpr
    (Or.inl (by norm_num))

lemma mersenne_isLeast (a k : Nat) (hk : 1 ≤ k) (hub : a ≤ 2 ^ k - 1)
    (hlb : 2 ^ (k - 1) - 1 < a) :
    IsLeast {m | (∃ i, m = 2 ^ i - 1) ∧ a ≤ m} (2 ^ k - 1) := by
  constructor
  · exact ⟨⟨k, rfl⟩, hub⟩
  · rintro m ⟨⟨i, rfl⟩, ham⟩
    rcases le_or_lt k i with hki | hik
    · have hpow : (2:Nat) ^ k ≤ 2 ^ i := Nat.pow_le_pow_right (by norm_num) hki
      omega
    · have hik' : i ≤ k - 1 := by omega
      have hpow : (2:Nat) ^ i ≤ 2 ^ (k - 1) := Nat.pow_le_pow_right (by norm_num) hik'
      omega

set_option maxRecDepth 10000 in
lemma nanoMask_bounds : ∀ len, len < 257 → 2 ≤ len →
    ∃ k, k < 10 ∧ 1 ≤ k ∧ nanoMask len = 2 ^ k - 1 ∧ len - 1 ≤ 2 ^ k - 1 ∧
      2 ^ (k - 1) - 1 < len - 1 := by decide

/-- C3: for every alphabet length 2 ≤ len ≤ 256 the mask
`(2 << (31 - Math.clz32((len - 1) | 1))) - 1` computed by `generateNanoID`
is the least integer of the form `2^k - 1` that is ≥ `len - 1`; and in the
sampling loop a byte `r` contributes a symbol iff `(r & mask) < len`, the
symbol index being exactly `r & mask`, while rejected bytes contribute
nothing and the next byte is consumed. -/
theorem nanoMask_least_and_acceptance (len : Nat) (alph : List Char) (byte : Nat → Nat)
    (size fuel : Nat) (out : List Char)
    (h2 : 2 ≤ len) (h256 : len ≤ 256) (halph : alph.length = len) :
    IsLeast {m | (∃ k, m = 2 ^ k - 1) ∧ len - 1 ≤ m} (nanoMask len) ∧
    (sampleLoop byte alph (nanoMask len) size fuel 0 0 [] = some out →
      ∃ M, out = (List.range M).filterMap (fun t =>
        if (byte t % 256) &&& nanoMask len < len then
          some (alph.getD ((byte t % 256) &&& nanoMask len) ' ') else none)) := by
  constructor
  · obtain ⟨k, _, hk1, hmask, hub, hlb⟩ := nanoMask_bounds len (by omega) h2
    rw [hmask]
    exact mersenne_isLeast (len - 1) k hk1 hub hlb
  · intro h
    obtain ⟨M, hM⟩ := sampleLoop_filterMap byte alph (nanoMask len) size fuel 0 0 [] out h
    refine ⟨M, ?_⟩
    rw [hM]
    simp [halph]

/-- Witness for C3 at a concrete input: the five-symbol alphabet "abcde"
(mask 7), size 2, the all-zeros stream. -/
theorem nanoMask_least_and_acceptance_witness :
    2 ≤ 5 ∧ 5 ≤ 256 ∧ ("abcde".data : List Char).length = 5 ∧
    (IsLeast {m | (∃ k, m = 2 ^ k - 1) ∧ 5 - 1 ≤ m} (nanoMask 5) ∧
     (sampleLoop (fun _ => 0) "abcde".data (nanoMask 5) 2 5 0 0 [] = some ['a','a'] →
       ∃ M, (['a','a'] : List Char) = (List.range M).filterMap (fun t =>
         if ((fun _ => 0) t % 256) &&& nanoMask 5 < 5 then
           some (("abcde".data).getD (((fun _ => 0) t % 256) &&& nanoMask 5) ' ')
         else none))) :=
  ⟨by decide, by decide, by decide,
    nanoMask_least_and_acceptance 5 "abcde".data (fun _ => 0) 2 5 ['a','a']
      (by decide) (by decide) (by decide)⟩

/-- C7 (failing input): at the minimum length 4 with all four character
classes enabled, `generateComplexString` computes `remainingLength = 0` and
the inner `generateSecureRandomString(0, charset)` call throws
"Length must be a positive integer", contradicting both the claim and the
function's own documentation (minimum length 4, one character per selected
class). -/
theorem generateComplexString_min_length_all_classes_throws :
    generateComplexString (fun _ _ => 0) 8 4
      { lowercase := true, uppercase := true, numbers := true, symbols := ['!'] }
      = .error .invalidLength := by decide

/-- C8 (failing input): passing the key "HEX" — a value of the declared
parameter type `string | keyof typeof ALPHABET` — makes
`typeof alphabet === "string"` true, so the key is used as the literal
three-symbol alphabet {H, E, X}: the output character 'H' is not in the
predefined constant `ALPHABET.HEX` at all.  Only a non-string reference
(`Sum.inr`, unreachable through the typed API) reaches the `ALPHABET[...]`
resolution. -/
theorem generateNanoID_string_key_not_resolved :
    generateNanoID (fun _ => 0) 8 (1 : ℚ) (.inl "HEX".data) = .ok (some ['H']) ∧
    'H' ∉ ALPHABET .HEX ∧
    generateNanoID (fun _ => 0) 8 (1 : ℚ) (.inr .HEX) = .ok (some ['0']) :=
  ⟨by decide, by decide, by decide⟩

/-- C6 counterexample: at `(size, alphabetSize, idCount) = (61, 2, 2)` the
threshold `61 · log2 2 = 61 > 60` selects the approximation branch, where the
code computes `1 - e^(-idCount·(idCount-1)/(2P))` while the spec's stated
formula is `1 - e^(-idCount²/(2P))`; since `2·(2-1) = 2 ≠ 4 = 2²` and `exp`
is injective, the two values differ. -/
theorem calculateCollisionProbability_spec_formula_refuted :
    calculateCollisionProbability 61 2 2 ≠ collisionProbabilityClaimed 61 2 2 := by
  have hcond : (60:ℝ) < 61 * Real.logb 2 2 := by
    rw [Real.logb_self_eq_one (by norm_num)]
    norm_num
  simp only [calculateCollisionProbability, collisionProbabilityClaimed]
  rw [if_pos hcond, if_pos hcond]
  intro h
  have hexp : Real.exp (-(2 * (2 - 1) / (2 * (2:ℝ) ^ (61:ℝ)))) =
      Real.exp (-(2 * 2) / (2 * (2:ℝ) ^ (61:ℝ))) := by linarith
  have harg := Real.exp_eq_exp.mp hexp
  have hP : (0:ℝ) < (2:ℝ) ^ (61:ℝ) := Real.rpow_pos_of_pos (by norm_num) _
  rw [neg_div] at harg
  have harg2 : (2:ℝ) * (2 - 1) / (2 * (2:ℝ) ^ (61:ℝ)) = 2 * 2 / (2 * (2:ℝ) ^ (61:ℝ)) := by
    linarith
  have hne : (2 * (2:ℝ) ^ (61:ℝ)) ≠ 0 := by positivity
  rw [div_eq_div_iff hne hne] at harg2
  nlinarith [hP]

/-- C6 (amended): `calculateCollisionProbability` computes, as a percentage,
the exact combinatorial form `1 - ((P-1)/P)^(idCount·(idCount-1)/2)` with
`P = alphabetSize^size` whenever `size · log2(alphabetSize) ≤ 60`, and above
that threshold the exponential approximation
`1 - e^(-idCount·(idCount-1)/(2P))` (the spec's `idCount²` corrected to the
`idCount·(idCount-1)` the code uses). -/
theorem calculateCollisionProbability_matches_amended (s A n : ℝ) :
    calculateCollisionProbability s A n = collisionProbabilityClaimedAmended s A n := by
  simp only [calculateCollisionProbability, collisionProbabilityClaimedAmended]
  split
  · rw [neg_div]
  · rfl

/-- C9 counterexample: the claim's constraints admit
`(alphabetSize, idCount, ceiling) = (2, 2, 90)` — but there
`recommendIdSize` computes `bitsNeeded = ⌈log2(4 / (2·ln 10))⌉ = 0` and
returns length 0, and `calculateCollisionProbability(0, 2, 2)` is 100 % > 90 %:
the round-trip fails. -/
theorem recommendIdSize_roundtrip_refuted :
    ¬ (calculateCollisionProbability (recommendIdSize 2 2 90) 2 2 ≤ 90) := by
  have hexp2 : Real.exp 2 < 10 := by
    have h := Real.exp_one_lt_d9
    have h2 : Real.exp 2 = Real.exp 1 * Real.exp 1 := by
      rw [← Real.exp_add]; norm_num
    nlinarith [Real.exp_pos 1]
  have hexp4 : (10:ℝ) < Real.exp 4 := by
    have h := Real.exp_one_gt_d9
    have hpow : (2.7182818283:ℝ) ^ (4:ℕ) ≤ Real.exp 1 ^ (4:ℕ) :=
      pow_le_pow_left₀ (by norm_num) h.le 4
    have hE : Real.exp 1 ^ (4:ℕ) = Real.exp 4 := by
      rw [Real.exp_one_pow]
      norm_num
    rw [hE] at hpow
    have hval : (10:ℝ) < (2.7182818283:ℝ) ^ (4:ℕ) := by norm_num
    linarith
  have hlb : (2:ℝ) < Real.log 10 := (Real.lt_log_iff_exp_lt (by norm_num)).mpr hexp2
  have hub : Real.log 10 < 4 := (Real.log_lt_iff_lt_exp (by norm_num)).mpr hexp4
  have harg : (2 * 2 : ℝ) / (-2 * Real.log (1 - 90 / 100)) = 2 / Real.log 10 := by
    rw [show (1:ℝ) - 90/100 = 10⁻¹ by norm_num, Real.log_inv]
    ring
  have hX0 : (0:ℝ) < 2 / Real.log 10 := by positivity
  have hXle : (2:ℝ) / Real.log 10 ≤ 1 := by
    rw [div_le_one (by linarith)]
    linarith
  have hXgt : (1:ℝ)/2 < 2 / Real.log 10 := by
    rw [lt_div_iff₀ (by linarith)]
    linarith
  have hlogb_le : Real.logb 2 (2 / Real.log 10) ≤ 0 :=
    Real.logb_nonpos (by norm_num) (le_of_lt hX0) hXle
  have hlogb_gt : (-1:ℝ) < Real.logb 2 (2 / Real.log 10) := by
    have h12 : Real.logb 2 ((2:ℝ)⁻¹) = -1 := by
      rw [Real.logb_inv, Real.logb_self_eq_one (by norm_num)]
    calc (-1:ℝ) = Real.logb 2 ((2:ℝ)⁻¹) := h12.symm
    _ < Real.logb 2 (2 / Real.log 10) := by
        apply Real.logb_lt_logb (by norm_num) (by norm_num)
        rw [show (2:ℝ)⁻¹ = 1/2 by norm_num]
        exact hXgt
  have hceil : (⌈Real.logb 2 ((2 * 2 : ℝ) / (-2 * Real.log (1 - 90 / 100)))⌉ : ℤ) = 0 := by
    rw [harg, Int.ceil_eq_zero_iff]
    exact ⟨hlogb_gt, hlogb_le⟩
  have hrec : recommendIdSize 2 2 90 = 0 := by
    simp only [recommendIdSize]
    rw [hceil, Real.logb_self_eq_one (by norm_num)]
    norm_num
  have hcalc : calculateCollisionProbability 0 2 2 = 100 := by
    simp only [calculateCollisionProbability]
    rw [if_neg (by rw [Real.logb_self_eq_one (by norm_num)]; norm_num :
      ¬ (60:ℝ) < 0 * Real.logb 2 2)]
    rw [Real.rpow_zero]
    rw [show ((1:ℝ) - 1) / 1 = 0 by norm_num]
    rw [show ((2:ℝ) * (2 - 1)) / 2 = 1 by norm_num]
    rw [Real.rpow_one]
    norm_num
  rw [hrec, hcalc]
  norm_num

lemma collision_approx_bound (q D Pv n : ℝ) (h1p0 : 0 < 1 - q)
    (hD : -(D / 2) = Real.log (1 - q)) (hP0 : 0 < Pv) (hn : 2 ≤ n)
    (hkeyA : n * n ≤ D * Pv) :
    (1 - Real.exp (-(n * (n - 1) / (2 * Pv)))) * 100 ≤ q * 100 := by
  have haux : n * (n - 1) ≤ n * n := by nlinarith
  have hfrac : n * (n - 1) / (2 * Pv) ≤ D / 2 := by
    rw [div_le_div_iff₀ (by positivity) (by norm_num)]
    nlinarith
  have hexpineq : 1 - q ≤ Real.exp (-(n * (n - 1) / (2 * Pv))) := by
    rw [← Real.exp_log h1p0]
    apply Real.exp_le_exp.mpr
    linarith
  linarith

lemma collision_exact_bound (q D Pv n : ℝ) (h1p0 : 0 < 1 - q)
    (hD : -(D / 2) = Real.log (1 - q)) (hP0 : 0 < Pv) (hP1 : 0 < Pv - 1)
    (hn : 2 ≤ n) (hkeyB : n * (n - 1) ≤ D * (Pv - 1)) :
    (1 - ((Pv - 1) / Pv) ^ (n * (n - 1) / 2)) * 100 ≤ q * 100 := by
  have hm0 : (0:ℝ) ≤ n * (n - 1) / 2 := by nlinarith
  have hstep1 : Real.exp (-(1 / (Pv - 1))) ≤ (Pv - 1) / Pv := by
    have hadd := Real.add_one_le_exp (1 / (Pv - 1))
    have hfr : 1 / (Pv - 1) + 1 = Pv / (Pv - 1) := by field_simp
    rw [hfr] at hadd
    have hpos : (0:ℝ) < Pv / (Pv - 1) := by positivity
    rw [Real.exp_neg]
    have hinv : (Real.exp (1 / (Pv - 1)))⁻¹ ≤ (Pv / (Pv - 1))⁻¹ :=
      inv_anti₀ hpos hadd
    rw [inv_div] at hinv
    exact hinv
  have hstep2 : Real.exp (-(1 / (Pv - 1)) * (n * (n - 1) / 2)) ≤
      ((Pv - 1) / Pv) ^ (n * (n - 1) / 2) := by
    have h1 : (Real.exp (-(1 / (Pv - 1)))) ^ (n * (n - 1) / 2) ≤
        ((Pv - 1) / Pv) ^ (n * (n - 1) / 2) :=
      Real.rpow_le_rpow (le_of_lt (Real.exp_pos _)) hstep1 hm0
    have h2 : (Real.exp (-(1 / (Pv - 1)))) ^ (n * (n - 1) / 2) =
        Real.exp (-(1 / (Pv - 1)) * (n * (n - 1) / 2)) := by
      rw [Real.rpow_def_of_pos (Real.exp_pos _), Real.log_exp]
    rw [h2] at h1
    exact h1
  have hstep3 : 1 - q ≤ Real.exp (-(1 / (Pv - 1)) * (n * (n - 1) / 2)) := by
    rw [← Real.exp_log h1p0]
    apply Real.exp_le_exp.mpr
    have hfrac2 : n * (n - 1) / (2 * (Pv - 1)) ≤ D / 2 := by
      rw [div_le_div_iff₀ (by positivity) (by norm_num)]
      nlinarith
    have heq : -(1 / (Pv - 1)) * (n * (n - 1) / 2) = -(n * (n - 1) / (2 * (Pv - 1))) := by
      rw [neg_mul, div_mul_div_comm, one_mul, mul_comm (Pv - 1) 2]
    rw [heq]
    linarith
  have hQm : 1 - q ≤ ((Pv - 1) / Pv) ^ (n * (n - 1) / 2) := le_trans hstep3 hstep2
  linarith

/-- C9 (amended): the collision round-trip holds for every alphabetSize ≥ 2,
idCount ≥ 2 and ceiling in (0, 50] percent — feeding `recommendIdSize` back
into `calculateCollisionProbability` yields a probability at most the
requested ceiling.  (The claim's full range (0, 100) fails: for ceilings
large enough that `2^bitsNeeded < idCount` — e.g. 90 % with two IDs — the
recommended length collapses to 0, see the counterexample.) -/
theorem recommendIdSize_roundtrip (A n p : ℝ) (hA : 2 ≤ A) (hn : 2 ≤ n)
    (hp0 : 0 < p) (hp50 : p ≤ 50) :
    calculateCollisionProbability (recommendIdSize A n p) A n ≤ p := by
  set q : ℝ := p / 100 with hqdef
  have hq0 : 0 < q := by positivity
  have hqh : q ≤ 1/2 := by rw [hqdef]; linarith
  have hq100 : q * 100 = p := by rw [hqdef]; ring
  have h1p0 : 0 < 1 - q := by linarith
  have h1p1 : 1 - q < 1 := by linarith
  have h1phalf : 1/2 ≤ 1 - q := by linarith
  have hlogneg : Real.log (1 - q) < 0 := Real.log_neg h1p0 h1p1
  set D : ℝ := -2 * Real.log (1 - q) with hDdef
  have hD0 : 0 < D := by rw [hDdef]; linarith
  have hDle : D ≤ 2 * Real.log 2 := by
    have hmono : Real.log (1/2) ≤ Real.log (1 - q) := Real.log_le_log (by norm_num) h1phalf
    rw [show (1:ℝ)/2 = 2⁻¹ by norm_num, Real.log_inv] at hmono
    rw [hDdef]; linarith
  have hlog2lt1 : Real.log 2 < 1 := by
    have := Real.log_two_lt_d9
    linarith
  have hDn : D < n := by linarith
  set X : ℝ := n * n / D with hXdef
  have hX0 : 0 < X := by rw [hXdef]; positivity
  set B : ℤ := ⌈Real.logb 2 X⌉ with hBdef
  have hBX : X ≤ (2:ℝ) ^ (B:ℝ) := by
    have h1 : Real.logb 2 X ≤ (B:ℝ) := Int.le_ceil _
    calc X = (2:ℝ) ^ Real.logb 2 X := (Real.rpow_logb (by norm_num) (by norm_num) hX0).symm
    _ ≤ (2:ℝ) ^ (B:ℝ) := (Real.rpow_le_rpow_left_iff (by norm_num)).mpr h1
  have h2B0 : (0:ℝ) < (2:ℝ) ^ (B:ℝ) := Real.rpow_pos_of_pos (by norm_num) _
  have hn2B : n ≤ (2:ℝ) ^ (B:ℝ) := by
    have hnX : n ≤ X := by
      rw [hXdef, le_div_iff₀ hD0]
      nlinarith
    linarith
  set E : ℝ := Real.logb 2 A with hEdef
  have hE1 : 1 ≤ E := by
    rw [hEdef]
    calc (1:ℝ) = Real.logb 2 2 := (Real.logb_self_eq_one (by norm_num)).symm
    _ ≤ Real.logb 2 A := Real.logb_le_logb_of_le (by norm_num) (by norm_num) hA
  have hE0 : 0 < E := by linarith
  set Lz : ℤ := ⌈(B:ℝ) / E⌉ with hLzdef
  have hrec : recommendIdSize A n p = (Lz : ℝ) := by
    simp only [recommendIdSize, hLzdef, hBdef, hXdef, hDdef, hqdef, hEdef]
  have hLE : (B:ℝ) ≤ (Lz:ℝ) * E := by
    have h1 : (B:ℝ)/E ≤ (Lz:ℝ) := Int.le_ceil _
    calc (B:ℝ) = (B:ℝ)/E * E := by field_simp
    _ ≤ (Lz:ℝ) * E := mul_le_mul_of_nonneg_right h1 (le_of_lt hE0)
  have hA0 : (0:ℝ) < A := by linarith
  have hP2B : (2:ℝ) ^ (B:ℝ) ≤ A ^ ((Lz:ℤ):ℝ) := by
    have hA2 : A = (2:ℝ) ^ E := by
      rw [hEdef]
      exact (Real.rpow_logb (by norm_num) (by norm_num) hA0).symm
    calc (2:ℝ) ^ (B:ℝ) ≤ (2:ℝ) ^ ((Lz:ℝ) * E) :=
      (Real.rpow_le_rpow_left_iff (by norm_num)).mpr hLE
    _ = ((2:ℝ) ^ E) ^ ((Lz:ℝ)) := by
      rw [← Real.rpow_mul (by norm_num), mul_comm]
    _ = A ^ ((Lz:ℝ)) := by rw [← hA2]
  rw [hrec]
  simp only [calculateCollisionProbability]
  set Pv : ℝ := A ^ ((Lz:ℝ)) with hPdef
  have hPn : n ≤ Pv := le_trans hn2B hP2B
  have hP2 : 2 ≤ Pv := le_trans hn hPn
  have hP0 : (0:ℝ) < Pv := by linarith
  have hP1 : (0:ℝ) < Pv - 1 := by linarith
  have hkeyA : n * n ≤ D * Pv := by
    have h1 := hBX
    rw [hXdef, div_le_iff₀ hD0] at h1
    have h2 : D * (2:ℝ)^(B:ℝ) ≤ D * Pv := mul_le_mul_of_nonneg_left hP2B (le_of_lt hD0)
    nlinarith
  have hkeyB : n * (n - 1) ≤ D * (Pv - 1) := by
    nlinarith [hkeyA, hDn]
  have hDhalf : -(D / 2) = Real.log (1 - q) := by rw [hDdef]; ring
  split
  · have := collision_approx_bound q D Pv n h1p0 hDhalf hP0 hn hkeyA
    linarith
  · have := collision_exact_bound q D Pv n h1p0 hDhalf hP0 hP1 hn hkeyB
    linarith

/-- Witness for the amended C9 at a concrete input: alphabet of 2 symbols,
2 IDs, ceiling 50 %. -/
theorem recommendIdSize_roundtrip_witness :
    (2:ℝ) ≤ 2 ∧ (2:ℝ) ≤ 2 ∧ (0:ℝ) < 50 ∧ (50:ℝ) ≤ 50 ∧
    calculateCollisionProbability (recommendIdSize 2 2 50) 2 2 ≤ 50 :=
  ⟨le_refl 2, le_refl 2, by norm_num, le_refl 50,
    recommendIdSize_roundtrip 2 2 50 (le_refl 2) (le_refl 2) (by norm_num) (le_refl 50)⟩
